import Mathlib

/-!
Verification of the command-security core of the autonomous coding-agent
harness.  The security validator (`security.py`) is modelled from the
specification (the module itself is absent from the source tree; only its
tests and callers remain), while the client configuration allowlists
(`client.py`, `client_opencode.py`) and the `DirectTools` file operations
(`direct_agent.py`) are embedded directly from their source.
-/

namespace Harness

/-! ## Character-level utilities -/

def squote : Char := Char.ofNat 39

def isWs (c : Char) : Bool :=
  c = ' ' || c = '\t' || c = '\n' || c = '\r'

def isQuoteChar (c : Char) : Bool :=
  c = squote || c = '"'

def trimChars (l : List Char) : List Char :=
  ((l.dropWhile isWs).reverse.dropWhile isWs).reverse

def strTrim (s : String) : String :=
  String.mk (trimChars s.data)

/-- Modelled from the spec: quote tracking of the Lexer/Segmenter (spec
section 4.1).  Scans the characters keeping the current open quote, if any;
a final state that is still inside a quote is an unterminated quote. -/
def quoteScan : List Char → Option Char → Option Char
  | [], q => q
  | c :: rest, none =>
    if isQuoteChar c then quoteScan rest (some c) else quoteScan rest none
  | c :: rest, some q =>
    if c = q then quoteScan rest none else quoteScan rest (some q)

/-- Modelled from the spec: a command string contains an unterminated single
or double quote when the quote scan ends inside a quote (spec section 4.1). -/
def hasUnterminatedQuote (s : String) : Bool :=
  (quoteScan s.data none).isSome

/-! ## Lexer/Segmenter (spec section 4.1), modelled from the spec:
`security.py` is absent from the source tree. -/

/-- Modelled from the spec: splits on the chaining operators `&&`, `||`, `;`
at the top level only (outside quotes); a single `|` is not a segment
boundary.  Quotes suppress operator recognition (spec section 4.1). -/
def splitChainsAux : List Char → Option Char → List Char → List (List Char) → List (List Char)
  | [], _, cur, acc => (cur :: acc).reverse
  | c :: rest, none, cur, acc =>
    if isQuoteChar c then splitChainsAux rest (some c) (cur ++ [c]) acc
    else if c = ';' then splitChainsAux rest none [] (cur :: acc)
    else if (c = '&' ∨ c = '|') ∧ cur.getLast? = some c then
      splitChainsAux rest none [] (cur.dropLast :: acc)
    else splitChainsAux rest none (cur ++ [c]) acc
  | c :: rest, some q, cur, acc =>
    if c = q then splitChainsAux rest none (cur ++ [c]) acc
    else splitChainsAux rest (some q) (cur ++ [c]) acc

def cleanupPieces (ps : List (List Char)) : List String :=
  (ps.map (fun p => String.mk (trimChars p))).filter (fun s => !(s == ""))

/-- Modelled from the spec: `segment(command)`; an unterminated quote is a
parse failure, empty or whitespace-only input yields zero segments
(spec section 4.1). -/
def split_command_segments_opt (s : String) : Option (List String) :=
  if (quoteScan s.data none).isSome then none
  else some (cleanupPieces (splitChainsAux s.data none [] []))

/-- Modelled from the spec: the segment list, empty when parsing failed. -/
def split_command_segments (s : String) : List String :=
  (split_command_segments_opt s).getD []

/-- Modelled from the spec: within a segment, `|` separates pipe stages;
quotes suppress recognition of `|` (spec section 4.2). -/
def splitPipesAux : List Char → Option Char → List Char → List (List Char) → List (List Char)
  | [], _, cur, acc => (cur :: acc).reverse
  | c :: rest, none, cur, acc =>
    if isQuoteChar c then splitPipesAux rest (some c) (cur ++ [c]) acc
    else if c = '|' then splitPipesAux rest none [] (cur :: acc)
    else splitPipesAux rest none (cur ++ [c]) acc
  | c :: rest, some q, cur, acc =>
    if c = q then splitPipesAux rest none (cur ++ [c]) acc
    else splitPipesAux rest (some q) (cur ++ [c]) acc

def pipeStages (seg : String) : List String :=
  cleanupPieces (splitPipesAux seg.data none [] [])

/-! ## Tokenizer (shlex-style), modelled from the spec -/

/-- Modelled from the spec: POSIX-style word splitting; quotes group a word
and are stripped, whitespace separates words.  Only called on input whose
quotes are balanced (guarded by `quoteScan` in `shlexSplit`). -/
def shlexAux : List Char → Option Char → Bool → List Char → List String → List String
  | [], _, inTok, cur, acc =>
    if inTok then acc ++ [String.mk cur] else acc
  | c :: rest, none, inTok, cur, acc =>
    if isQuoteChar c then shlexAux rest (some c) true cur acc
    else if isWs c then
      (if inTok then shlexAux rest none false [] (acc ++ [String.mk cur])
       else shlexAux rest none false [] acc)
    else shlexAux rest none true (cur ++ [c]) acc
  | c :: rest, some q, _, cur, acc =>
    if c = q then shlexAux rest none true cur acc
    else shlexAux rest (some q) true (cur ++ [c]) acc

/-- Modelled from the spec: tokenization fails exactly on an unterminated
quote, otherwise yields the words of the input. -/
def shlexSplit (s : String) : Option (List String) :=
  if (quoteScan s.data none).isSome then none
  else some (shlexAux s.data none false [] [])

/-! ## Command Extractor (spec section 4.2), modelled from the spec -/

def isIdentChar (c : Char) : Bool :=
  c.isAlphanum || c = '_'

/-- Modelled from the spec: a token that looks like an environment-variable
assignment `NAME=value` (spec section 4.2). -/
def isEnvAssign (tok : String) : Bool :=
  let pre := tok.data.takeWhile (fun c => c != '=')
  !pre.isEmpty && decide (pre.length < tok.data.length) && pre.all isIdentChar

def lastComponentAux : List Char → List Char → List Char
  | [], cur => cur
  | c :: rest, cur =>
    if c = '/' then lastComponentAux rest [] else lastComponentAux rest (cur ++ [c])

/-- Modelled from the spec: reduce a program token to its final path
component (spec section 4.2). -/
def basename (tok : String) : String :=
  String.mk (lastComponentAux tok.data [])

def containsSlash (tok : String) : Bool :=
  tok.data.contains '/'

/-- Modelled from the spec: the program invoked by one pipe stage: tokenize,
discard leading environment assignments, take the basename of the first
remaining token (spec section 4.2). -/
def stageFirstProgram (stage : String) : Option String :=
  match shlexSplit stage with
  | none => none
  | some toks => ((toks.dropWhile isEnvAssign).head?).map basename

/-- Modelled from the spec: all extracted programs with their owning raw
stage text, or `none` when parsing failed anywhere (spec sections 4.1-4.2:
parse failures are folded into a single failure signal). -/
def extractPairs (cmd : String) : Option (List (String × String)) :=
  match split_command_segments_opt cmd with
  | none => none
  | some segs =>
    let stages := segs.flatMap pipeStages
    if stages.any (fun st => (shlexSplit st).isNone) then none
    else some (stages.filterMap (fun st => (stageFirstProgram st).map (fun nm => (nm, st))))

/-- Modelled from the spec: `extract_commands(command)` of the missing
module security.py: program names in left-to-right execution order, empty
on malformed input (spec section 4.2). -/
def extract_commands (cmd : String) : List String :=
  match extractPairs cmd with
  | none => []
  | some ps => ps.map Prod.fst

/-! ## Allowlist Table (spec section 4.3), modelled from the spec -/

/-- Modelled from the spec: `ALLOWED_COMMANDS` of the missing module
security.py, the static table of permitted program names (spec section
4.3); `chmod` belongs to the table as part of the marked subset that needs
a secondary argument-aware policy. -/
def ALLOWED_COMMANDS : List String :=
  ["ls", "cat", "head", "tail", "wc", "grep",
   "npm", "node", "npx", "git", "ps", "lsof", "sleep", "pkill", "chmod"]

/-- Modelled from the spec: the marked subset of allowlisted program names
that requires extra, argument-aware validation (spec section 4.3).  The
init-script-invocation pattern is also marked, but it is recognised by the
`.sh` suffix of the extracted name rather than by a table entry. -/
def COMMANDS_NEEDING_EXTRA_VALIDATION : List String :=
  ["pkill", "chmod"]

/-! ## Per-Command Policies (spec section 4.4), modelled from the spec -/

/-- Modelled from the spec: dev processes started by this harness, the only
legal `pkill` targets (spec section 4.4). -/
def DEV_PROCESSES : List String :=
  ["node", "npm", "vite"]

def startsWithDash (s : String) : Bool :=
  match s.data with
  | [] => false
  | c :: _ => c = '-'

/-- Modelled from the spec: skip signal/flag tokens such as `-f` and
`-SIGTERM` before the `pkill` target (spec section 4.4). -/
def skipFlags : List String → List String
  | [] => []
  | t :: rest => if startsWithDash t then skipFlags rest else t :: rest

/-- Modelled from the spec: `validate_pkill_command` of the missing module
security.py, the process-termination policy (spec section 4.4): the target
process after the flag tokens must be a harness-started dev process;
interpreters and shells are blocked, a missing target is blocked, and an
untokenizable segment is blocked. -/
def validate_pkill_command (seg : String) : Bool × String :=
  match shlexSplit seg with
  | none => (false, "Could not parse pkill command")
  | some toks =>
    match skipFlags (toks.drop 1) with
    | [] => (false, "pkill requires a process name")
    | target :: _ =>
      if DEV_PROCESSES.contains target then (true, "")
      else (false, "pkill is only allowed for dev processes (node, npm, vite)")

def isSubjectChar (c : Char) : Bool :=
  c = 'u' || c = 'g' || c = 'o' || c = 'a'

/-- Modelled from the spec: a symbolic mode that adds execute permission:
an optional subject specifier (`u`, `a`, `ug`, ...) followed by `+x`
(spec section 4.4). -/
def isAllowedChmodMode (mode : String) : Bool :=
  decide (mode.data = mode.data.takeWhile isSubjectChar ++ ['+', 'x'])

/-- Modelled from the spec: `validate_chmod_command` of the missing module
security.py, the permission-change policy (spec section 4.4): only
`subject* + x` symbolic modes with at least one explicit file argument are
allowed; numeric modes, `-x`, `+w`, `+r`, extra command-line flags, and
zero file arguments are blocked. -/
def validate_chmod_command (seg : String) : Bool × String :=
  match shlexSplit seg with
  | none => (false, "Could not parse chmod command")
  | some toks =>
    match toks.drop 1 with
    | [] => (false, "chmod is only allowed with +x mode")
    | mode :: files =>
      if isAllowedChmodMode mode then
        if files.any startsWithDash then (false, "flags are not allowed in chmod commands")
        else if files.isEmpty then (false, "chmod requires at least one file argument")
        else (true, "")
      else if startsWithDash mode then (false, "flags are not allowed in chmod commands")
      else (false, "chmod is only allowed with +x mode")

/-- Modelled from the spec: `validate_init_script` of the missing module
security.py, the init-script policy (spec section 4.4): only direct
execution of a script literally named `init.sh` through a path that
contains a path separator is allowed; a bare `init.sh`, interpreter
invocations and every other script name are blocked. -/
def validate_init_script (seg : String) : Bool × String :=
  match shlexSplit seg with
  | none => (false, "Could not parse init script command")
  | some [] => (false, "Only ./init.sh is allowed")
  | some (first :: _) =>
    if basename first == "init.sh" && containsSlash first then (true, "")
    else (false, "Only ./init.sh is allowed")

/-! ## Security Hook (spec section 4.5), modelled from the spec -/

/-- The terminal decision of a validation: the empty allow marker or a block
record with a reason (spec section 3, Decision). -/
inductive Decision where
  | allow : Decision
  | block : String → Decision
deriving DecidableEq, Repr

/-- The tool-invocation record consumed by the hook (spec section 6): a tool
name and an optional command string. -/
structure ToolInvocation where
  tool_name : String
  command? : Option String
deriving DecidableEq, Repr

def decisionOfPolicy (p : Bool × String) : Decision :=
  if p.1 then Decision.allow else Decision.block p.2

def strEndsWith (s suf : String) : Bool :=
  suf.data.isSuffixOf s.data

/-- Modelled from the spec: the check of one extracted program with its
owning raw segment (spec sections 4.3-4.5).  A name matching the
init-script-invocation pattern (`.sh` suffix) goes to the init-script
policy; other names absent from the table are unconditionally blocked;
flagged names run their argument-aware policy. -/
def checkExtracted : String × String → Decision
  | (name, stage) =>
    if strEndsWith name ".sh" then decisionOfPolicy (validate_init_script stage)
    else if ALLOWED_COMMANDS.contains name then
      (if COMMANDS_NEEDING_EXTRA_VALIDATION.contains name then
        (if name == "pkill" then decisionOfPolicy (validate_pkill_command stage)
         else decisionOfPolicy (validate_chmod_command stage))
       else Decision.allow)
    else Decision.block (name ++ " is not in the allowed commands list")

/-- Modelled from the spec: the checks run left to right; the first failing
check decides (spec section 4.5). -/
def checkPairs : List (String × String) → Decision
  | [] => Decision.allow
  | p :: rest =>
    match checkExtracted p with
    | Decision.allow => checkPairs rest
    | Decision.block r => Decision.block r

/-- Modelled from the spec: `bash_security_hook` of the missing module
security.py (spec section 4.5): allow for non-shell tools and missing
commands; block on parse failure; otherwise check every extracted program.
An empty or whitespace-only command yields zero extracted programs and is
therefore allowed. -/
def bash_security_hook (inv : ToolInvocation) : Decision :=
  if inv.tool_name = "Bash" then
    match inv.command? with
    | none => Decision.allow
    | some cmd =>
      match extractPairs cmd with
      | none => Decision.block "Could not parse command"
      | some pairs => checkPairs pairs
  else Decision.allow

/-! ## Path resolution (model of pathlib's `Path.resolve`) -/

/-- A path component is canonical when it is neither empty nor a dot
component. -/
def isValidComp (c : String) : Bool :=
  decide (c ≠ "" ∧ c ≠ "." ∧ c ≠ "..")

/-- Normalize path components: drop empty and `.` components, let `..` pop
the last kept component (the stack is kept reversed). -/
def normComps : List String → List String → List String
  | stack, [] => stack.reverse
  | stack, c :: rest =>
    if c = "" ∨ c = "." then normComps stack rest
    else if c = ".." then normComps stack.tail rest
    else normComps (c :: stack) rest

def pathComps (s : String) : List String :=
  (s.data.splitOn '/').map (fun cs => String.mk cs)

def startsWithSlash (s : String) : Bool :=
  match s.data with
  | [] => false
  | c :: _ => c = '/'

/-- The canonical components of `p` resolved against the absolute directory
`cwd`: an absolute `p` ignores `cwd`, a relative one is appended to it. -/
def resolveComps (cwd p : String) : List String :=
  if startsWithSlash p then normComps [] (pathComps p)
  else normComps [] (pathComps cwd ++ pathComps p)

def intercalateSlash : List String → String
  | [] => ""
  | [c] => c
  | c :: c2 :: rest => c ++ "/" ++ intercalateSlash (c2 :: rest)

def renderAbs (comps : List String) : String :=
  "/" ++ intercalateSlash comps

/-- Model of `Path.resolve()`: the absolute, lexically canonicalized form of
`p` relative to the working directory `cwd` (symlinks are not modelled). -/
def resolvePath (cwd p : String) : String :=
  renderAbs (resolveComps cwd p)

/-! ## Permission-Scope Builder (spec section 4.6), modelled from the spec -/

/-- The permission scope consumed by the session configuration: the allow
rules and the default mode (spec section 3, PermissionScope). -/
structure PermissionScope where
  allow : List String
  defaultMode : String
deriving DecidableEq, Repr

/-- Modelled from the spec: `get_opencode_permissions(project_dir)` of the
missing module security.py (spec section 4.6): Read/Write/Edit/Glob/Grep
rules rooted at the resolved project directory, an unrestricted shell
rule, and the accept-edits default mode.  `cwd` stands for the process
working directory used by path resolution. -/
def get_opencode_permissions (cwd project_dir : String) : PermissionScope :=
  let root := resolvePath cwd project_dir
  { allow :=
      ["Read(" ++ root ++ "/**)",
       "Write(" ++ root ++ "/**)",
       "Edit(" ++ root ++ "/**)",
       "Glob(" ++ root ++ "/**)",
       "Grep(" ++ root ++ "/**)",
       "Bash(*)"],
    defaultMode := "acceptEdits" }

/-! ## DirectTools (src/direct_agent.py), embedded from the source -/

/-- A pure model of the file system: a finite map from absolute file paths
to their contents. -/
def Fs : Type := List (String × String)

/-- `DirectTools` state: the resolved project directory
(src/direct_agent.py line 27). -/
structure DirectTools where
  project_dir : String
deriving DecidableEq

/-- The constructor resolves the project directory
(src/direct_agent.py line 27). -/
def DirectTools.make (cwd dir : String) : DirectTools :=
  ⟨resolvePath cwd dir⟩

/-- The result record of one tool call: the keys of the Python result dict,
absent keys are `none`. -/
structure OpResult where
  success : Bool
  error : Option String := none
  content : Option String := none
  files : Option (List String) := none
deriving DecidableEq, Repr

/-- The record returned by every confinement failure
(src/direct_agent.py lines 77, 91, 106). -/
def outsideResult : OpResult :=
  { success := false, error := some "Path outside project directory" }

def strStartsWith (s p : String) : Bool :=
  p.data.isPrefixOf s.data

/-- `DirectTools.read_file` (src/direct_agent.py lines 71-83): resolve the
path against the project directory, require the resolved project directory
string as a plain prefix, then read. -/
def DirectTools.read_file (t : DirectTools) (fs : Fs) (path : String) : OpResult :=
  let fp := resolvePath t.project_dir path
  if strStartsWith fp t.project_dir then
    match List.lookup fp fs with
    | some c => { success := true, content := some c }
    | none => { success := false, error := some "No such file or directory" }
  else outsideResult

/-- `DirectTools.write_file` (src/direct_agent.py lines 85-98): same
confinement check, then write (parents are created implicitly); returns the
result record and the new file system. -/
def DirectTools.write_file (t : DirectTools) (fs : Fs) (path content : String) : OpResult × Fs :=
  let fp := resolvePath t.project_dir path
  if strStartsWith fp t.project_dir then
    ({ success := true }, (fp, content) :: List.filter (fun e => e.1 != fp) fs)
  else (outsideResult, fs)

/-- The direct child name of `dir` on the way to the stored path `p`, if `p`
lies under `dir`. -/
def childNameOf (dir p : String) : Option String :=
  let dl := dir.data ++ ['/']
  if dl.isPrefixOf p.data then
    match (p.data.drop dl.length).takeWhile (fun c => c != '/') with
    | [] => none
    | cs => some (String.mk cs)
  else none

/-- `DirectTools.list_dir` (src/direct_agent.py lines 100-112): same
confinement check, then list the entries under the resolved directory; a
directory with no entries is reported as missing. -/
def DirectTools.list_dir (t : DirectTools) (fs : Fs) (path : String) : OpResult :=
  let fp := resolvePath t.project_dir path
  if strStartsWith fp t.project_dir then
    let names := (fs.filterMap (fun e => childNameOf fp e.1)).dedup
    if names.isEmpty then { success := false, error := some "No such file or directory" }
    else { success := true, files := some names }
  else outsideResult

/-! ## Client configuration allowlists (src/client.py, src/client_opencode.py),
embedded from the source, and the spec's allowlist table -/

/-- The `security.bash_allowlist` that `create_client` in src/client.py
writes into `.opencode.json` (lines 160-165). -/
def clientBashAllowlist : List String :=
  ["ls", "cat", "head", "tail", "wc", "grep",
   "npm", "node", "npx", "git", "ps", "lsof", "sleep", "pkill"]

/-- The `security.bash_allowlist` that `create_client` in
src/client_opencode.py writes into `.opencode_settings.json` (lines 56-61). -/
def clientOpencodeBashAllowlist : List String :=
  ["ls", "cat", "head", "tail", "wc", "grep",
   "npm", "node", "git", "ps", "lsof", "sleep", "pkill"]

/-- The allowlist table as enumerated by the spec (spec section 4.3). -/
def specAllowlistTable : List String :=
  ["ls", "cat", "head", "tail", "wc", "grep",
   "npm", "node", "npx", "git", "ps", "lsof", "sleep", "pkill"]

/-! ## Helper lemmas -/

theorem skipFlags_eq_dropWhile : ∀ l : List String, skipFlags l = l.dropWhile startsWithDash := by
  intro l
  induction l with
  | nil => rfl
  | cons t rest ih =>
    by_cases h : startsWithDash t = true
    · simp [skipFlags, List.dropWhile_cons, h, ih]
    · simp [skipFlags, List.dropWhile_cons, h]

theorem checkPairs_blocks {pairs : List (String × String)} {p : String × String} {r : String}
    (hm : p ∈ pairs) (hb : checkExtracted p = Decision.block r) :
    ∃ s, checkPairs pairs = Decision.block s := by
  induction pairs with
  | nil => cases hm
  | cons q rest ih =>
    rcases List.mem_cons.mp hm with h | h
    · subst h
      exact ⟨r, by simp [checkPairs, hb]⟩
    · cases hq : checkExtracted q with
      | allow => simpa [checkPairs, hq] using ih h
      | block s => exact ⟨s, by simp [checkPairs, hq]⟩

theorem forall_of_dropWhile_forall {p : Char → Bool} :
    ∀ {l : List Char}, (∀ c ∈ l.dropWhile p, p c = true) → ∀ c ∈ l, p c = true := by
  intro l
  induction l with
  | nil => intro _ c hc; cases hc
  | cons a t ih =>
    intro h c hc
    by_cases ha : p a = true
    · rw [List.dropWhile_cons, if_pos ha] at h
      rcases List.mem_cons.mp hc with h1 | h1
      · subst h1; exact ha
      · exact ih h c h1
    · rw [List.dropWhile_cons, if_neg ha] at h
      exact h c hc

theorem trimChars_nil_ws {l : List Char} (h : trimChars l = []) : ∀ c ∈ l, isWs c = true := by
  unfold trimChars at h
  rw [List.reverse_eq_nil_iff] at h
  have h2 : ∀ c ∈ (l.dropWhile isWs).reverse, isWs c = true := List.dropWhile_eq_nil_iff.mp h
  exact forall_of_dropWhile_forall (fun c hc => h2 c (List.mem_reverse.mpr hc))

theorem ws_char_cases {c : Char} (h : isWs c = true) :
    c = ' ' ∨ c = '\t' ∨ c = '\n' ∨ c = '\r' := by
  simp only [isWs, Bool.or_eq_true, decide_eq_true_eq] at h
  tauto

theorem ws_not_quote {c : Char} (h : isWs c = true) : isQuoteChar c = false := by
  rcases ws_char_cases h with h | h | h | h <;> subst h <;> decide

theorem quoteScan_ws : ∀ {l : List Char}, (∀ c ∈ l, isWs c = true) → quoteScan l none = none := by
  intro l
  induction l with
  | nil => intro _; rfl
  | cons c t ih =>
    intro h
    have hq : isQuoteChar c = false := ws_not_quote (h c (by simp))
    simp only [quoteScan, hq, Bool.false_eq_true, if_false]
    exact ih (fun d hd => h d (by simp [hd]))

theorem splitChainsAux_ws :
    ∀ (l : List Char), (∀ c ∈ l, isWs c = true) →
      ∀ cur acc, splitChainsAux l none cur acc = ((cur ++ l) :: acc).reverse := by
  intro l
  induction l with
  | nil => intro _ cur acc; simp [splitChainsAux]
  | cons c t ih =>
    intro h cur acc
    have hc : isWs c = true := h c (by simp)
    have hq : isQuoteChar c = false := ws_not_quote hc
    have hsemi : ¬(c = ';') := by
      rcases ws_char_cases hc with h1 | h1 | h1 | h1 <;> subst h1 <;> decide
    have hop : ¬((c = '&' ∨ c = '|') ∧ cur.getLast? = some c) := by
      intro hx
      rcases ws_char_cases hc with h1 | h1 | h1 | h1 <;> subst h1 <;>
        rcases hx.1 with h2 | h2 <;> exact absurd h2 (by decide)
    have ht : ∀ d ∈ t, isWs d = true := fun d hd => h d (by simp [hd])
    rw [splitChainsAux, hq]
    simp only [Bool.false_eq_true, if_false, if_neg hsemi, if_neg hop]
    rw [ih ht (cur ++ [c]) acc]
    simp [List.append_assoc]

theorem extractPairs_trim_empty {cmd : String} (h : strTrim cmd = "") :
    extractPairs cmd = some [] := by
  have hd : trimChars cmd.data = [] := by
    have h2 := congrArg String.data h
    simpa [strTrim] using h2
  have hws : ∀ c ∈ cmd.data, isWs c = true := trimChars_nil_ws hd
  have hqs : quoteScan cmd.data none = none := quoteScan_ws hws
  have hsegs : split_command_segments_opt cmd = some [] := by
    unfold split_command_segments_opt
    rw [hqs]
    simp only [Option.isSome_none, Bool.false_eq_true, if_false]
    rw [splitChainsAux_ws cmd.data hws [] []]
    simp [cleanupPieces, hd]
  unfold extractPairs
  rw [hsegs]
  simp

theorem filterMap_flatMap_eq {α β γ : Type} (g : α → List β) (f : β → Option γ) :
    ∀ l : List α, (l.flatMap g).filterMap f = l.flatMap (fun a => (g a).filterMap f) := by
  intro l
  induction l with
  | nil => rfl
  | cons a t ih => simp [List.flatMap_cons, List.filterMap_append, ih]

theorem normComps_all_valid :
    ∀ (l stack : List String), stack.all isValidComp = true →
      (normComps stack l).all isValidComp = true := by
  intro l
  induction l with
  | nil => intro stack h; simpa [normComps, List.all_reverse] using h
  | cons c rest ih =>
    intro stack h
    by_cases h1 : c = "" ∨ c = "."
    · rw [normComps, if_pos h1]
      exact ih stack h
    · by_cases h2 : c = ".."
      · rw [normComps, if_neg h1, if_pos h2]
        refine ih stack.tail ?_
        cases stack with
        | nil => rfl
        | cons s ss =>
          simp only [List.all_cons, Bool.and_eq_true] at h
          exact h.2
      · rw [normComps, if_neg h1, if_neg h2]
        refine ih (c :: stack) ?_
        have hc : isValidComp c = true := by
          push_neg at h1
          simp only [isValidComp, decide_eq_true_eq]
          exact ⟨h1.1, h1.2, h2⟩
        simp [List.all_cons, hc, h]

theorem startsWithSlash_renderAbs (comps : List String) :
    startsWithSlash (renderAbs comps) = true := by
  unfold renderAbs startsWithSlash
  have hdata : (("/" : String) ++ intercalateSlash comps).data
      = '/' :: (intercalateSlash comps).data := by
    rw [String.data_append]
    rfl
  rw [hdata]
  rfl

/-! ## Spec-side restatement definitions used by the claim theorems -/

/-- Spec-side restatement for claim C3: the basenames of the first
non-assignment token of each pipe stage of each chain segment, in
left-to-right order. -/
def specExtractCommands (cmd : String) : List String :=
  (split_command_segments cmd).flatMap (fun seg => (pipeStages seg).filterMap stageFirstProgram)

/-- Spec-side restatement for claim C4: after the `pkill` token, flag and
signal tokens are skipped; the first target token must name a harness dev
process. -/
def pkillSpec (seg : String) : Bool × String :=
  match shlexSplit seg with
  | none => (false, "Could not parse pkill command")
  | some toks =>
    match (toks.drop 1).dropWhile startsWithDash with
    | [] => (false, "pkill requires a process name")
    | target :: _ =>
      if target ∈ DEV_PROCESSES then (true, "")
      else (false, "pkill is only allowed for dev processes (node, npm, vite)")

/-- Spec-side restatement for claim C5: flags are rejected, the mode must
be an optional subject specifier followed by `+x`, at least one file must
follow, and no file argument may itself be a flag. -/
def chmodSpec (seg : String) : Bool × String :=
  match shlexSplit seg with
  | none => (false, "Could not parse chmod command")
  | some toks =>
    match toks.drop 1 with
    | [] => (false, "chmod is only allowed with +x mode")
    | mode :: files =>
      if startsWithDash mode ∧ ¬(isAllowedChmodMode mode = true) then
        (false, "flags are not allowed in chmod commands")
      else if ¬(isAllowedChmodMode mode = true) then
        (false, "chmod is only allowed with +x mode")
      else if files.any startsWithDash then
        (false, "flags are not allowed in chmod commands")
      else if files = [] then
        (false, "chmod requires at least one file argument")
      else (true, "")

/-- Spec-side restatement for claim C6: only a first token whose basename
is literally `init.sh` and which contains a path separator is a permitted
direct init-script execution. -/
def initScriptSpec (seg : String) : Bool × String :=
  match shlexSplit seg with
  | none => (false, "Could not parse init script command")
  | some toks =>
    match toks.head? with
    | none => (false, "Only ./init.sh is allowed")
    | some first =>
      if containsSlash first ∧ basename first = "init.sh" then (true, "")
      else (false, "Only ./init.sh is allowed")

/-! ## Claim theorems -/

/-- Claim C1, counterexample: the claim states that any extracted program
name absent from the allowlist yields a Block whose reason names the
program and states it is not in the allowed commands list.  The command
`./init.sh` extracts the program name `init.sh`, which is absent from the
allowlist, yet the hook returns the allow marker, because names matching
the init-script-invocation pattern are routed to the init-script policy
instead of the table check. -/
theorem securityHook_unlisted_counterexample :
    extract_commands "./init.sh" = ["init.sh"] ∧
    ALLOWED_COMMANDS.contains "init.sh" = false ∧
    bash_security_hook ⟨"Bash", some "./init.sh"⟩ = Decision.allow := by
  refine ⟨by decide, by decide, by decide⟩

/-- Claim C1, amended: for a Bash invocation whose command parses, every
extracted program name that does not end in `.sh` and is absent from the
allowlist has its check fail with a Block naming the program and stating it
is not in the allowed commands list, and the hook then returns a Block
decision (the reason of the leftmost failing check), regardless of whether
the other programs in the command are allowlisted. -/
theorem securityHook_blocks_unlisted_programs
    (cmd name stage : String) (pairs : List (String × String))
    (hp : extractPairs cmd = some pairs)
    (hmem : (name, stage) ∈ pairs)
    (hsh : strEndsWith name ".sh" = false)
    (hal : ALLOWED_COMMANDS.contains name = false) :
    checkExtracted (name, stage) = Decision.block (name ++ " is not in the allowed commands list") ∧
    ∃ r, bash_security_hook ⟨"Bash", some cmd⟩ = Decision.block r := by
  have hchk : checkExtracted (name, stage)
      = Decision.block (name ++ " is not in the allowed commands list") := by
    have hnm : ¬(name ∈ ALLOWED_COMMANDS) := by simpa using hal
    simp [checkExtracted, hsh, hnm]
  refine ⟨hchk, ?_⟩
  rcases checkPairs_blocks hmem hchk with ⟨r, hr⟩
  exact ⟨r, by simp [bash_security_hook, hp, hr]⟩

/-- Claim C1, witness: in `ls -la && curl http://evil.example/x` the second
program `curl` is not allowlisted even though the first is, and the hook
blocks. -/
theorem securityHook_blocks_unlisted_witness :
    checkExtracted ("curl", "curl http://evil.example/x")
      = Decision.block ("curl" ++ " is not in the allowed commands list") ∧
    ∃ r, bash_security_hook ⟨"Bash", some "ls -la && curl http://evil.example/x"⟩
      = Decision.block r :=
  securityHook_blocks_unlisted_programs
    "ls -la && curl http://evil.example/x" "curl" "curl http://evil.example/x"
    [("ls", "ls -la"), ("curl", "curl http://evil.example/x")]
    (by decide) (by decide) (by decide) (by decide)

/-- Claim C2: a command containing an unterminated single or double quote
fails to parse as a whole: `extract_commands` returns the empty sequence
and the hook blocks with the could-not-parse reason; no segment is
partially processed or allowed. -/
theorem parseFailure_blocks_whole_command (cmd : String)
    (h : hasUnterminatedQuote cmd = true) :
    extract_commands cmd = [] ∧
    bash_security_hook ⟨"Bash", some cmd⟩ = Decision.block "Could not parse command" := by
  have hp : extractPairs cmd = none := by
    unfold extractPairs split_command_segments_opt
    unfold hasUnterminatedQuote at h
    simp [h]
  exact ⟨by simp [extract_commands, hp], by simp [bash_security_hook, hp]⟩

/-- Claim C2, witness at the spec's own example. -/
theorem parseFailure_blocks_witness :
    hasUnterminatedQuote "echo \"unclosed quote" = true ∧
    extract_commands "echo \"unclosed quote" = [] ∧
    bash_security_hook ⟨"Bash", some "echo \"unclosed quote"⟩
      = Decision.block "Could not parse command" :=
  ⟨by decide, parseFailure_blocks_whole_command "echo \"unclosed quote" (by decide)⟩

/-- Claim C3: on every command that parses, `extract_commands` returns
exactly the basenames of the first non-assignment token of each pipe stage
of each chain segment, in left-to-right execution order, including the
spec's three worked examples. -/
theorem extract_commands_decomposition (cmd : String)
    (h : (extractPairs cmd).isSome = true) :
    extract_commands cmd = specExtractCommands cmd ∧
    extract_commands "cmd1 && cmd2 || cmd3; cmd4 | cmd5"
      = ["cmd1", "cmd2", "cmd3", "cmd4", "cmd5"] ∧
    extract_commands "VAR1=val1 VAR2=val2 command arg1 arg2" = ["command"] ∧
    extract_commands "/usr/bin/python script.py" = ["python"] := by
  refine ⟨?_, by decide, by decide, by decide⟩
  cases hs : split_command_segments_opt cmd with
  | none =>
    unfold extractPairs at h
    rw [hs] at h
    simp at h
  | some segs =>
    have hany : ((segs.flatMap pipeStages).any (fun st => (shlexSplit st).isNone)) = false := by
      cases hxv : ((segs.flatMap pipeStages).any (fun st => (shlexSplit st).isNone)) with
      | false => rfl
      | true =>
        exfalso
        unfold extractPairs at h
        rw [hs] at h
        simp [hxv] at h
    unfold extract_commands extractPairs specExtractCommands split_command_segments
    rw [hs]
    simp only [hany, Bool.false_eq_true, if_false, Option.getD_some]
    rw [List.map_filterMap]
    have hfn : (fun st => Option.map Prod.fst
        (Option.map (fun nm => (nm, st)) (stageFirstProgram st)))
        = fun st => stageFirstProgram st := by
      funext st
      rw [Option.map_map]
      cases stageFirstProgram st <;> rfl
    rw [hfn, filterMap_flatMap_eq]

/-- Claim C3, witness at the spec's chaining example. -/
theorem extract_commands_decomposition_witness :
    extract_commands "cmd1 && cmd2 || cmd3; cmd4 | cmd5"
      = specExtractCommands "cmd1 && cmd2 || cmd3; cmd4 | cmd5" :=
  (extract_commands_decomposition "cmd1 && cmd2 || cmd3; cmd4 | cmd5" (by decide)).1

/-- Claim C4: `validate_pkill_command` allows a segment exactly when, after
skipping flag and signal tokens, the first target token names a harness
dev process; it blocks interpreter and shell targets with the dev-process
reason, blocks a missing target with the process-name reason, and blocks an
untokenizable segment with the could-not-parse reason. -/
theorem validate_pkill_characterization (seg : String) :
    validate_pkill_command seg = pkillSpec seg ∧
    validate_pkill_command "pkill node" = (true, "") ∧
    validate_pkill_command "pkill -f node server.js" = (true, "") ∧
    validate_pkill_command "pkill -SIGTERM node" = (true, "") ∧
    validate_pkill_command "pkill python"
      = (false, "pkill is only allowed for dev processes (node, npm, vite)") ∧
    validate_pkill_command "pkill bash"
      = (false, "pkill is only allowed for dev processes (node, npm, vite)") ∧
    validate_pkill_command "pkill sh"
      = (false, "pkill is only allowed for dev processes (node, npm, vite)") ∧
    validate_pkill_command "pkill" = (false, "pkill requires a process name") ∧
    validate_pkill_command "pkill \"unclosed" = (false, "Could not parse pkill command") := by
  refine ⟨?_, by decide, by decide, by decide, by decide, by decide, by decide, by decide,
    by decide⟩
  cases hsx : shlexSplit seg with
  | none => simp only [validate_pkill_command, pkillSpec, hsx]
  | some toks =>
    simp only [validate_pkill_command, pkillSpec, hsx]
    rw [skipFlags_eq_dropWhile]
    cases hsd : (toks.drop 1).dropWhile startsWithDash with
    | nil => rfl
    | cons target rest =>
      by_cases ht : target ∈ DEV_PROCESSES
      · simp [ht]
      · simp [ht]

/-- Claim C5: `validate_chmod_command` allows a segment exactly when the
mode is an optional subject specifier followed by `+x` and at least one
non-flag file argument follows; numeric and non-`+x` modes are blocked with
the `+x`-mode reason, flags are blocked with the flags reason, and a
missing file argument is blocked with the at-least-one-file reason. -/
theorem validate_chmod_characterization (seg : String) :
    validate_chmod_command seg = chmodSpec seg ∧
    validate_chmod_command "chmod +x init.sh" = (true, "") ∧
    validate_chmod_command "chmod u+x script.sh" = (true, "") ∧
    validate_chmod_command "chmod ug+x script.sh" = (true, "") ∧
    validate_chmod_command "chmod 755 init.sh" = (false, "chmod is only allowed with +x mode") ∧
    validate_chmod_command "chmod u+w script.sh"
      = (false, "chmod is only allowed with +x mode") ∧
    validate_chmod_command "chmod -x script.sh"
      = (false, "flags are not allowed in chmod commands") ∧
    validate_chmod_command "chmod -R +x dir/"
      = (false, "flags are not allowed in chmod commands") ∧
    validate_chmod_command "chmod +x" = (false, "chmod requires at least one file argument") := by
  refine ⟨?_, by decide, by decide, by decide, by decide, by decide, by decide, by decide,
    by decide⟩
  cases hsx : shlexSplit seg with
  | none => simp only [validate_chmod_command, chmodSpec, hsx]
  | some toks =>
    simp only [validate_chmod_command, chmodSpec, hsx]
    cases hargs : toks.drop 1 with
    | nil => rfl
    | cons mode files =>
      by_cases hm : isAllowedChmodMode mode = true
      · simp only [hm, not_true, and_false, if_true, if_false]
        by_cases ha : files.any startsWithDash = true
        · simp [ha]
        · simp only [ha, Bool.false_eq_true, if_false]
          cases files with
          | nil => simp
          | cons f fs => simp
      · by_cases hd : startsWithDash mode = true
        · simp [hm, hd]
        · simp [hm, hd]

/-- Claim C6: `validate_init_script` allows a segment exactly when its
first token has basename `init.sh` and contains a path separator; a bare
`init.sh`, an explicit interpreter invocation, and every other script name
are blocked with the only-`./init.sh` reason. -/
theorem validate_init_script_characterization (seg : String) :
    validate_init_script seg = initScriptSpec seg ∧
    ((validate_init_script seg).1 = true ↔
      ∃ toks first rest, shlexSplit seg = some toks ∧ toks = first :: rest ∧
        basename first = "init.sh" ∧ containsSlash first = true) ∧
    validate_init_script "./init.sh" = (true, "") ∧
    validate_init_script "path/to/init.sh arg1 arg2" = (true, "") ∧
    validate_init_script "init.sh" = (false, "Only ./init.sh is allowed") ∧
    validate_init_script "bash init.sh" = (false, "Only ./init.sh is allowed") ∧
    validate_init_script "/bin/bash init.sh" = (false, "Only ./init.sh is allowed") ∧
    validate_init_script "other.sh" = (false, "Only ./init.sh is allowed") := by
  refine ⟨?_, ?_, by decide, by decide, by decide, by decide, by decide, by decide⟩
  · cases hsx : shlexSplit seg with
    | none => simp only [validate_init_script, initScriptSpec, hsx]
    | some toks =>
      cases toks with
      | nil => simp [validate_init_script, initScriptSpec, hsx]
      | cons first rest =>
        simp only [validate_init_script, initScriptSpec, hsx, List.head?]
        by_cases hb : basename first = "init.sh"
        · by_cases hc : containsSlash first = true
          · simp [hb, hc]
          · simp [hb, hc]
        · simp [hb]
  · constructor
    · intro h
      cases hsx : shlexSplit seg with
      | none => simp [validate_init_script, hsx] at h
      | some toks =>
        cases toks with
        | nil => simp [validate_init_script, hsx] at h
        | cons first rest =>
          simp only [validate_init_script, hsx] at h
          by_cases hcond : (basename first == "init.sh" && containsSlash first) = true
          · have hb : basename first = "init.sh" := by
              have h2 := (Bool.and_eq_true _ _).mp hcond
              exact beq_iff_eq.mp h2.1
            have hc : containsSlash first = true := ((Bool.and_eq_true _ _).mp hcond).2
            exact ⟨_, _, _, rfl, rfl, hb, hc⟩
          · rw [if_neg hcond] at h
            simp at h
    · rintro ⟨toks, first, rest, hsx, htoks, hb, hc⟩
      subst htoks
      simp only [validate_init_script, hsx]
      simp [hb, hc]

/-- Claim C7: the hook returns the empty allow marker when the tool is not
the shell-execution tool, or the command field is missing, empty, or
whitespace-only; none of these inputs is an error or a block. -/
theorem securityHook_not_applicable_allows (inv : ToolInvocation)
    (h : inv.tool_name ≠ "Bash" ∨ inv.command? = none ∨
      ∃ c, inv.command? = some c ∧ strTrim c = "") :
    bash_security_hook inv = Decision.allow := by
  rcases h with h | h | ⟨c, hc, htrim⟩
  · simp [bash_security_hook, h]
  · unfold bash_security_hook
    rw [h]
    by_cases hb : inv.tool_name = "Bash" <;> simp [hb]
  · have hep := extractPairs_trim_empty htrim
    by_cases hb : inv.tool_name = "Bash" <;>
      simp [bash_security_hook, hb, hc, hep, checkPairs]

/-- Claim C7, witness: a non-shell tool, a missing command and a
whitespace-only command all yield the allow marker. -/
theorem securityHook_not_applicable_witness :
    bash_security_hook ⟨"Read", some "rm -rf /"⟩ = Decision.allow ∧
    bash_security_hook ⟨"Bash", none⟩ = Decision.allow ∧
    bash_security_hook ⟨"Bash", some "   "⟩ = Decision.allow :=
  ⟨securityHook_not_applicable_allows ⟨"Read", some "rm -rf /"⟩ (Or.inl (by decide)),
   securityHook_not_applicable_allows ⟨"Bash", none⟩ (Or.inr (Or.inl rfl)),
   securityHook_not_applicable_allows ⟨"Bash", some "   "⟩
     (Or.inr (Or.inr ⟨"   ", rfl, by decide⟩))⟩

/-- Claim C8: the permission-scope builder deterministically yields
Read/Write/Edit/Glob/Grep rules all rooted at the canonicalized absolute
form of the project directory, an unrestricted `Bash(*)` rule, and the
`acceptEdits` default mode; the resolved root is absolute and canonical,
and an already-absolute project directory resolves the same under any
working directory. -/
theorem permission_scope_characterization (cwd cwd2 project_dir : String) :
    get_opencode_permissions cwd project_dir =
      { allow :=
          ["Read(" ++ resolvePath cwd project_dir ++ "/**)",
           "Write(" ++ resolvePath cwd project_dir ++ "/**)",
           "Edit(" ++ resolvePath cwd project_dir ++ "/**)",
           "Glob(" ++ resolvePath cwd project_dir ++ "/**)",
           "Grep(" ++ resolvePath cwd project_dir ++ "/**)",
           "Bash(*)"],
        defaultMode := "acceptEdits" } ∧
    startsWithSlash (resolvePath cwd project_dir) = true ∧
    (resolveComps cwd project_dir).all isValidComp = true ∧
    (startsWithSlash project_dir = true →
      resolvePath cwd2 project_dir = resolvePath cwd project_dir) := by
  refine ⟨rfl, startsWithSlash_renderAbs _, ?_, ?_⟩
  · unfold resolveComps
    split
    · exact normComps_all_valid _ [] rfl
    · exact normComps_all_valid _ [] rfl
  · intro h
    simp [resolvePath, resolveComps, h]

/-- Claim C8, witness: concrete scope for an absolute project directory,
with working-directory independence discharged. -/
theorem permission_scope_witness :
    (get_opencode_permissions "/home" "/test/project").defaultMode = "acceptEdits" ∧
    (get_opencode_permissions "/home" "/test/project").allow.contains "Bash(*)" = true ∧
    resolvePath "/other" "/test/project" = resolvePath "/home" "/test/project" :=
  ⟨by rw [(permission_scope_characterization "/home" "/other" "/test/project").1],
   by rw [(permission_scope_characterization "/home" "/other" "/test/project").1]; decide,
   (permission_scope_characterization "/home" "/other" "/test/project").2.2.2 (by decide)⟩

/-- Claim C9, counterexample: the bash allowlist written by `create_client`
in src/client.py contains `npx`, while the one written by `create_client`
in src/client_opencode.py does not, so the two are not equal as sets of
program names. -/
theorem bash_allowlist_equality_counterexample :
    clientBashAllowlist.contains "npx" = true ∧
    clientOpencodeBashAllowlist.contains "npx" = false := by
  refine ⟨by decide, by decide⟩

/-- Claim C9, amended: the allowlist written by src/client.py equals the
spec's table, but the allowlist written by src/client_opencode.py omits
`npx`: it equals the spec's table with `npx` removed, so the two client
configurations do not agree on a single process-wide constant. -/
theorem bash_allowlist_relation :
    clientBashAllowlist = specAllowlistTable ∧
    clientOpencodeBashAllowlist = specAllowlistTable.erase "npx" ∧
    specAllowlistTable.contains "npx" = true := by
  refine ⟨rfl, by decide, by decide⟩

/-- Claim C10: when the path resolved against the project directory does
not have the resolved project directory's string as a plain prefix,
`read_file`, `write_file` and `list_dir` all return the
success-false record with error `Path outside project directory`, and the
file system is left unchanged. -/
theorem directTools_path_confinement (t : DirectTools) (fs : Fs) (path content : String)
    (h : strStartsWith (resolvePath t.project_dir path) t.project_dir = false) :
    DirectTools.read_file t fs path = outsideResult ∧
    DirectTools.write_file t fs path content = (outsideResult, fs) ∧
    DirectTools.list_dir t fs path = outsideResult ∧
    outsideResult.success = false ∧
    outsideResult.error = some "Path outside project directory" := by
  refine ⟨?_, ?_, ?_, rfl, rfl⟩
  · simp [DirectTools.read_file, h]
  · simp [DirectTools.write_file, h]
  · simp [DirectTools.list_dir, h]

/-- Claim C10, witness: an absolute path escaping the project directory is
rejected by all three operations and leaves the file system unchanged. -/
theorem directTools_confinement_witness :
    DirectTools.read_file ⟨"/proj"⟩ [] "/etc/passwd" = outsideResult ∧
    DirectTools.write_file ⟨"/proj"⟩ [] "/etc/passwd" "x" = (outsideResult, []) ∧
    DirectTools.list_dir ⟨"/proj"⟩ [] "/etc/passwd" = outsideResult ∧
    outsideResult.success = false ∧
    outsideResult.error = some "Path outside project directory" :=
  directTools_path_confinement ⟨"/proj"⟩ [] "/etc/passwd" "x" (by decide)

end Harness
